import Mathlib

/-!
Shallow embedding of the Sentinel backend's two core components:

* the Verification Loop (`src/backend/app/services/verification_service.py`,
  `VerificationLoopService.run_verification_loop`), together with the
  GitHub-gateway polling helper `wait_for_ci_completion`
  (`src/backend/app/services/github_service.py`);
* the Fix Pipeline tail of the `/analyze` endpoint
  (`src/backend/app/api/analyze.py`): write-access check, scouting,
  code-context assembly, fix validation, branch creation with the
  `main`→`master` fallback, commit and pull-request steps, together with
  the gateway helpers `check_write_access` and `create_branch`.

Python dicts whose values are strings are modelled as association lists
(`PyDict`); gateway calls that may raise are modelled as `Except String`
values whose `error` constructor carries `str(e)`.  Each modelled
operation additionally returns a trace of the externally visible calls it
makes, so that claims about side effects and call counts can be stated.
-/

instance {e a : Type} [DecidableEq e] [DecidableEq a] : DecidableEq (Except e a)
  | .ok x, .ok y =>
    if h : x = y then .isTrue (by rw [h]) else .isFalse (by intro hc; injection hc; exact h (by assumption))
  | .ok _, .error _ => .isFalse (by intro hc; exact Except.noConfusion hc)
  | .error _, .ok _ => .isFalse (by intro hc; exact Except.noConfusion hc)
  | .error x, .error y =>
    if h : x = y then .isTrue (by rw [h]) else .isFalse (by intro hc; injection hc; exact h (by assumption))

/-- A Python dict with string keys and string values, as an association
list in insertion order (`result[k] = v` adds the pair when the key is
absent and overwrites in place when it is present). -/
abbrev PyDict := List (String × String)

/-- `d[k] = v` on a Python dict: overwrite in place if the key exists,
otherwise append. -/
def dictInsert (d : PyDict) (k v : String) : PyDict :=
  if d.any (fun kv => kv.1 == k) then
    d.map (fun kv => if kv.1 == k then (k, v) else kv)
  else
    d ++ [(k, v)]

/-- Python's `needle in hay` substring test on strings. -/
def strContains (hay needle : String) : Bool :=
  (List.range (hay.toList.length + 1)).any
    (fun n => (hay.toList.drop n).take needle.toList.length == needle.toList)

/-- Python's `s.lower()` (character-wise lowering). -/
def pyLower (s : String) : String := String.mk (s.toList.map Char.toLower)

/-- Python's `s[:n]` slice on a string: its first `n` characters. -/
def pySlice (s : String) (n : Nat) : String := String.mk (s.toList.take n)

/-- The combined CI status dict returned by `GitHubService.get_pr_status`
and `wait_for_ci_completion`: the combined `state` string plus the list
of per-check status dicts. -/
structure CIStatus where
  state : String
  statuses : List PyDict
deriving Repr, DecidableEq

/-- `GitHubService.wait_for_ci_completion`'s polling loop, idealized so
that the k-th in-loop poll happens at elapsed time `k * pollInterval`:
poll while the elapsed time is below the timeout, returning the first
non-`pending` status; once the timeout elapses, return one final poll
result unconditionally.  `fuel` is the number of in-loop polls remaining
and `k` the index of the next poll. -/
def waitAux (getStatus : Nat → CIStatus) : Nat → Nat → CIStatus
  | 0, k => getStatus k
  | fuel + 1, k =>
    let status := getStatus k
    if status.state = "pending" then waitAux getStatus fuel (k + 1) else status

/-- `GitHubService.wait_for_ci_completion`: poll `get_pr_status` every
`pollInterval` seconds while elapsed time is below `timeoutSeconds`
(i.e. `ceil (timeoutSeconds / pollInterval)` in-loop polls), returning
early on any non-`pending` state; on timeout return the current status,
pending or not. -/
def wait_for_ci_completion (getStatus : Nat → CIStatus)
    (timeoutSeconds pollInterval : Nat) : CIStatus :=
  waitAux getStatus ((timeoutSeconds + pollInterval - 1) / pollInterval) 0

/-- The `VerificationResult` dataclass of
`verification_service.py`. -/
structure VerificationResult where
  success : Bool
  iterations : Nat
  final_status : String
  error_logs : List PyDict
  corrected_code : Option String := none
  error_message : Option String := none
deriving Repr, DecidableEq

/-- Externally visible calls made by one run of the verification loop,
tagged with the 1-based iteration number. -/
inductive LoopEvent
  /-- `wait_for_ci_completion` returned a status with this `state`. -/
  | polled (i : Nat) (state : String)
  /-- `get_check_logs` was called; `state` is the combined CI state that
  led to the call. -/
  | logsCall (i : Nat) (state : String)
  /-- `gemini.self_correct` was called on this working code. -/
  | correctCall (i : Nat) (code : String)
  /-- `commit_file_changes` was called with this new file content. -/
  | commitCall (i : Nat) (code : String)
deriving Repr, DecidableEq

/-- The gateway calls the verification loop makes at iteration `i`,
each either returning a value or raising (`Except.error` carries the
exception's message).  `modelReply` is the dict parsed by
`GeminiService._parse_json_response` inside `self_correct`, before the
required-field fill-in. -/
structure LoopEnv where
  ciStatus : Nat → Except String CIStatus
  checkLogs : Nat → Except String (List PyDict)
  modelReply : Nat → Except String PyDict
  commitResult : Nat → Except String Unit

/-- The body of `GeminiService.self_correct`'s required-field loop:
`if field not in result: result[field] = "" if field != "error_analysis"
else "Unknown error"`. -/
def fillRequired (acc : PyDict) (k : String) : PyDict :=
  if (List.lookup k acc).isSome then acc
  else dictInsert acc k (if k = "error_analysis" then "Unknown error" else "")

/-- `GeminiService.self_correct`'s required-field loop: ensure the keys
`error_analysis`, `corrected_code`, `changes_made` are present, filling
a missing `error_analysis` with `"Unknown error"` and the other missing
fields with `""`. -/
def fillCorrectionFields (d : PyDict) : PyDict :=
  ["error_analysis", "corrected_code", "changes_made"].foldl fillRequired d

/-- The outcome of one iteration of the verification loop body. -/
inductive StepOut
  /-- The loop returned this `VerificationResult` during the iteration. -/
  | finished (r : VerificationResult) (ev : List LoopEvent)
  /-- A gateway call raised; the exception escapes the loop. -/
  | raised (e : String) (ev : List LoopEvent)
  /-- The iteration committed a correction and the loop continues with
  the new working code and the logs fetched this iteration. -/
  | continueWith (code : String) (logs : List PyDict) (ev : List LoopEvent)
deriving Repr, DecidableEq

/-- One iteration (1-based index `i`) of the body of
`run_verification_loop`, starting from working code `currentCode`:
await CI, return on success, fetch failed-check logs, return when none,
otherwise self-correct, commit, and continue. -/
def loopStep (env : LoopEnv) (i : Nat) (currentCode : String) : StepOut :=
  match env.ciStatus i with
  | .error e => .raised e []
  | .ok status =>
    if status.state = "success" then
      .finished
        { success := true, iterations := i, final_status := "success",
          error_logs := [], corrected_code := some currentCode,
          error_message := none }
        [LoopEvent.polled i status.state]
    else
      match env.checkLogs i with
      | .error e =>
        .raised e [LoopEvent.polled i status.state, LoopEvent.logsCall i status.state]
      | .ok logs =>
        if logs.isEmpty then
          .finished
            { success := false, iterations := i, final_status := status.state,
              error_logs := status.statuses, corrected_code := some currentCode,
              error_message := some "CI failed but no specific error logs found" }
            [LoopEvent.polled i status.state, LoopEvent.logsCall i status.state]
        else
          match env.modelReply i with
          | .error e =>
            .raised e [LoopEvent.polled i status.state, LoopEvent.logsCall i status.state,
                       LoopEvent.correctCall i currentCode]
          | .ok reply =>
            match env.commitResult i with
            | .error e =>
              .raised e [LoopEvent.polled i status.state, LoopEvent.logsCall i status.state,
                         LoopEvent.correctCall i currentCode,
                         LoopEvent.commitCall i
                           ((List.lookup "corrected_code" (fillCorrectionFields reply)).getD currentCode)]
            | .ok _ =>
              .continueWith
                ((List.lookup "corrected_code" (fillCorrectionFields reply)).getD currentCode) logs
                [LoopEvent.polled i status.state, LoopEvent.logsCall i status.state,
                 LoopEvent.correctCall i currentCode,
                 LoopEvent.commitCall i
                   ((List.lookup "corrected_code" (fillCorrectionFields reply)).getD currentCode)]

/-- The `while iteration < self.max_iterations` loop of
`run_verification_loop`.  `rem` is the number of iterations remaining,
`iteration` the number already performed, `errorLogs` the most recently
fetched logs (initially `[]`). -/
def loopAux (env : LoopEnv) (maxIterations : Nat) :
    Nat → Nat → String → List PyDict → List LoopEvent →
    Except String VerificationResult × List LoopEvent
  | 0, iteration, currentCode, errorLogs, trace =>
    (.ok { success := false, iterations := iteration, final_status := "timeout",
           error_logs := errorLogs, corrected_code := some currentCode,
           error_message := some ("Maximum iterations (" ++ toString maxIterations
             ++ ") reached without CI success") },
     trace)
  | rem + 1, iteration, currentCode, errorLogs, trace =>
    match loopStep env (iteration + 1) currentCode with
    | .finished r ev => (.ok r, trace ++ ev)
    | .raised e ev => (.error e, trace ++ ev)
    | .continueWith code logs ev =>
      loopAux env maxIterations rem (iteration + 1) code logs (trace ++ ev)

/-- `VerificationLoopService.run_verification_loop`: run up to
`maxIterations` iterations starting from `originalCode`, returning
either the `VerificationResult` or the escaping exception, together
with the trace of gateway calls. -/
def runVerificationLoop (env : LoopEnv) (maxIterations : Nat) (originalCode : String) :
    Except String VerificationResult × List LoopEvent :=
  loopAux env maxIterations maxIterations 0 originalCode [] []

/-- Number of correction-capability calls recorded in a trace. -/
def countCorrections (trace : List LoopEvent) : Nat :=
  (trace.filter (fun e => match e with | .correctCall _ _ => true | _ => false)).length

/-- `GitHubService.check_write_access`: `try: return
repo.has_in_collaborators(user_login) except Exception: return False`.
The oracle is the collaborator query, which may raise. -/
def check_write_access (collaboratorQuery : Except String Bool) : Bool :=
  match collaboratorQuery with
  | .ok b => b
  | .error _ => false

/-- Outcome of the write-access check step of `analyze_vibe`. -/
inductive AccessOutcome
  /-- The pipeline continues past the access check. -/
  | proceed
  /-- The pipeline aborts with the HTTP 403 write-access error. -/
  | abortForbidden
deriving Repr, DecidableEq

/-- The write-access check step of `analyze_vibe` (Step 4.5): call
`check_write_access`; on a negative result raise the 403
`HTTPException`.  The surrounding `except Exception` handler that would
let the run continue is unreachable for gateway errors, because
`check_write_access` already catches every exception and returns
`False`. -/
def accessCheckStep (collaboratorQuery : Except String Bool) : AccessOutcome :=
  if check_write_access collaboratorQuery then .proceed else .abortForbidden

/-- The repository-gateway primitives used by branch creation, each
possibly raising (`Except.error` carries `str(e)`). -/
structure BranchEnv where
  /-- `repo.get_git_ref name` returning the object sha. -/
  getGitRef : String → Except String String
  /-- `repo.create_git_ref ref sha`. -/
  createGitRef : String → String → Except String Unit

/-- Externally visible repository-gateway calls made by the fix
pipeline's branch/commit/PR tail. -/
inductive RepoEvent
  /-- `GitHubService.create_branch` was invoked with this base branch. -/
  | branchCall (base name : String)
  /-- `repo.get_git_ref` was invoked on this ref name. -/
  | refLookup (refName : String)
  /-- `repo.create_git_ref` was invoked with this ref name and sha. -/
  | refCreate (refName sha : String)
  /-- `commit_file_changes` was invoked on this branch and file path. -/
  | commitCall (branch filePath : String)
  /-- `repo.create_pull` was invoked with this head and base. -/
  | prCall (head base : String)
deriving Repr, DecidableEq

/-- `GitHubService.create_branch`: look up `heads/<base>`; on an
exception fall back to looking up `heads/master`; then create
`refs/heads/<newBranchName>` from the resolved sha.  Any exception from
the fallback lookup or from ref creation escapes. -/
def create_branch (env : BranchEnv) (baseBranch newBranchName : String) :
    Except String String × List RepoEvent :=
  let ev0 := [RepoEvent.branchCall baseBranch newBranchName,
              RepoEvent.refLookup ("heads/" ++ baseBranch)]
  match env.getGitRef ("heads/" ++ baseBranch) with
  | .ok sha =>
    let ev1 := ev0 ++ [RepoEvent.refCreate ("refs/heads/" ++ newBranchName) sha]
    match env.createGitRef ("refs/heads/" ++ newBranchName) sha with
    | .ok _ => (.ok newBranchName, ev1)
    | .error e => (.error e, ev1)
  | .error _ =>
    let ev1 := ev0 ++ [RepoEvent.refLookup "heads/master"]
    match env.getGitRef "heads/master" with
    | .ok sha =>
      let ev2 := ev1 ++ [RepoEvent.refCreate ("refs/heads/" ++ newBranchName) sha]
      match env.createGitRef ("refs/heads/" ++ newBranchName) sha with
      | .ok _ => (.ok newBranchName, ev2)
      | .error e => (.error e, ev2)
    | .error e => (.error e, ev1)

/-- The permission test of `analyze_vibe` Step 8:
`"403" in str(e).lower() or "forbidden" in str(e).lower()`. -/
def hasPermSignal (e : String) : Bool :=
  strContains (pyLower e) "403" || strContains (pyLower e) "forbidden"

/-- Outcome of the branch-creation step of `analyze_vibe`. -/
inductive BranchOutcome
  /-- A branch of this name was created. -/
  | created (name : String)
  /-- HTTP 403: the escaping error carried a permission signal. -/
  | permissionDenied
  /-- HTTP 500 `Failed to create branch` with the second error. -/
  | branchFailed (detail : String)
deriving Repr, DecidableEq

/-- Step 8 of `analyze_vibe`: `create_branch(repo_url, "main", name)`;
on an exception whose message carries a 403/forbidden signal raise the
403 `HTTPException` immediately; on any other exception retry
`create_branch(repo_url, "master", name)` once, failing with HTTP 500
if that also raises. -/
def branchStep (env : BranchEnv) (branchName : String) :
    BranchOutcome × List RepoEvent :=
  match create_branch env "main" branchName with
  | (.ok n, ev) => (.created n, ev)
  | (.error e, ev) =>
    if hasPermSignal e then (.permissionDenied, ev)
    else
      match create_branch env "master" branchName with
      | (.ok n, ev2) => (.created n, ev ++ ev2)
      | (.error e2, ev2) => (.branchFailed e2, ev ++ ev2)

/-- One entry of the repository tree dict list returned by
`get_file_tree` (only the fields the pipeline reads). -/
structure TreeEntry where
  path : String
  kind : String
deriving Repr, DecidableEq

/-- Step 5 of `analyze_vibe`: the list
`[f["path"] for f in file_tree if f["type"] == "blob"]` passed to
`gemini_service.scout_files`. -/
def blobPaths (tree : List TreeEntry) : List String :=
  (tree.filter (fun f => f.kind == "blob")).map (fun f => f.path)

/-- The body of the fetch loop of Step 6 of `analyze_vibe`: fetch one
file's content and insert it into the `code_context` dict when it is
non-empty (`if content:`). -/
def contextStep (getFileContent : String → Option String) (acc : PyDict)
    (p : String) : PyDict :=
  match getFileContent p with
  | some c => if c = "" then acc else dictInsert acc p c
  | none => acc

/-- Step 6 of `analyze_vibe`: iterate over `relevant_files[:10]`, fetch
each file's content, and insert the non-empty results into the
`code_context` dict in order. -/
def buildCodeContext (getFileContent : String → Option String)
    (relevantFiles : List String) : PyDict :=
  (relevantFiles.take 10).foldl (contextStep getFileContent) []

/-- The argument pair handed to the relevance-ranking capability and
the code context built from its answer, as assembled by Steps 5–6 of
`analyze_vibe`.  `rank` is the Reasoning Gateway's
`scout_files` capability; `getFileContent` the Repository Gateway's
file fetch. -/
structure ScoutState where
  scoutArgPaths : List String
  scoutArgDesc : Option String
  codeContext : PyDict
deriving Repr, DecidableEq

/-- Steps 5–6 of `analyze_vibe`: send the blob-path list and the
optional bug description to the relevance-ranking capability, then
fetch content for at most the first 10 paths it returns. -/
def scoutAndGather (tree : List TreeEntry) (bugDescription : Option String)
    (rank : List String → Option String → List String)
    (getFileContent : String → Option String) : ScoutState :=
  let filePaths := blobPaths tree
  let relevantFiles := rank filePaths bugDescription
  { scoutArgPaths := filePaths,
    scoutArgDesc := bugDescription,
    codeContext := buildCodeContext getFileContent relevantFiles }

/-- The per-file section of the analysis prompt built inside
`GeminiService.analyze_vibe`:
`f"### {file_path}\n```\n{file_content[:2000]}\n```\n\n"`. -/
def contextEntrySection (filePath fileContent : String) : String :=
  "### " ++ filePath ++ "\n```\n" ++ pySlice fileContent 2000 ++ "\n```\n\n"

/-- The codebase-context portion of the prompt built inside
`GeminiService.analyze_vibe` from the handed-off code context. -/
def codeContextPrompt (codeContext : PyDict) : String :=
  codeContext.foldl (fun acc kv => acc ++ contextEntrySection kv.1 kv.2) ""

/-- The `fix` dict of an `AnalysisResult` when present. -/
structure FixDict where
  file_path : String
  code : String
deriving Repr, DecidableEq

/-- The guard of Step 7.5 of `analyze_vibe`:
`not fix or not fix.get("file_path") or not fix.get("code")`, where a
missing or empty `fix` dict is modelled as `none` and a missing field
as the empty string. -/
def fixIncomplete (fix : Option FixDict) : Bool :=
  match fix with
  | none => true
  | some f => f.file_path.isEmpty || f.code.isEmpty

/-- The slice of `AnalyzeResponse` the fix-validation claims are about. -/
structure AnalyzeResponseModel where
  status : String
  pr_url : Option String
deriving Repr, DecidableEq

/-- Outcome of the fix-pipeline tail (Steps 7.5–9 of `analyze_vibe`). -/
inductive TailOutcome
  /-- The endpoint returned this response body. -/
  | returned (resp : AnalyzeResponseModel)
  /-- The endpoint raised an `HTTPException` with this status code. -/
  | httpError (code : Nat) (detail : String)
deriving Repr, DecidableEq

/-- The gateway calls made by the fix-pipeline tail beyond branch
creation. -/
structure TailEnv where
  branchEnv : BranchEnv
  /-- `commit_file_changes branch file_path content`. -/
  commitFile : String → String → String → Except String Unit
  /-- `repo.create_pull head base` returning the PR url. -/
  createPull : String → String → Except String String

/-- `GitHubService.create_pull_request`: try the requested base; on an
exception retry once with base `master`. -/
def create_pull_request (env : TailEnv) (headBranch baseBranch : String) :
    Except String String × List RepoEvent :=
  let ev0 := [RepoEvent.prCall headBranch baseBranch]
  match env.createPull headBranch baseBranch with
  | .ok url => (.ok url, ev0)
  | .error _ =>
    let ev1 := ev0 ++ [RepoEvent.prCall headBranch "master"]
    match env.createPull headBranch "master" with
    | .ok url => (.ok url, ev1)
    | .error e => (.error e, ev1)

/-- Steps 7.5–9 of `analyze_vibe`: validate the fix (returning the
no-actionable-fix success response without touching the repository when
it is absent or incomplete), then create the branch, commit the fix,
and open the pull request, mapping each failure to its
`HTTPException`. -/
def fixTail (env : TailEnv) (fix : Option FixDict) (branchName : String) :
    TailOutcome × List RepoEvent :=
  if fixIncomplete fix then
    (.returned { status := "success", pr_url := none }, [])
  else
    match fix with
    | none => (.returned { status := "success", pr_url := none }, [])
    | some f =>
      match branchStep env.branchEnv branchName with
      | (.permissionDenied, ev) =>
        (.httpError 403 "GitHub token doesn't have write access to this repository", ev)
      | (.branchFailed e, ev) => (.httpError 500 ("Failed to create branch: " ++ e), ev)
      | (.created n, ev) =>
        let ev1 := ev ++ [RepoEvent.commitCall n f.file_path]
        match env.commitFile n f.file_path f.code with
        | .error e => (.httpError 500 ("Failed to commit changes: " ++ e), ev1)
        | .ok _ =>
          match create_pull_request env n "main" with
          | (.ok url, ev2) =>
            (.returned { status := "success", pr_url := some url }, ev1 ++ ev2)
          | (.error e, ev2) =>
            (.httpError 500 ("Failed to create pull request: " ++ e), ev1 ++ ev2)

/-! ### Association-list helper lemmas -/

theorem lookup_eq_none_any {d : PyDict} {k : String}
    (h : List.lookup k d = none) : d.any (fun kv => kv.1 == k) = false := by
  induction d with
  | nil => rfl
  | cons hd tl ih =>
    obtain ⟨a, b⟩ := hd
    rw [List.lookup_cons] at h
    rcases hbk : k == a with _ | _
    · simp only [hbk] at h
      have h1 : (a == k) = false :=
        beq_eq_false_iff_ne.mpr (Ne.symm (beq_eq_false_iff_ne.mp hbk))
      simp [List.any_cons, h1, ih h]
    · simp only [hbk] at h
      exact Option.noConfusion h

theorem lookup_dictInsert_of_none {d : PyDict} {k : String} (v : String)
    (h : List.lookup k d = none) : dictInsert d k v = d ++ [(k, v)] := by
  unfold dictInsert
  simp [lookup_eq_none_any h]

theorem lookup_append_of_none {d : PyDict} {k : String} (l : PyDict)
    (h : List.lookup k d = none) : List.lookup k (d ++ l) = List.lookup k l := by
  induction d with
  | nil => simp
  | cons hd tl ih =>
    obtain ⟨a, b⟩ := hd
    rw [List.lookup_cons] at h
    rcases hbk : k == a with _ | _
    · simp only [hbk] at h
      simp only [List.cons_append, List.lookup_cons, hbk]
      exact ih h
    · simp only [hbk] at h
      exact Option.noConfusion h

theorem lookup_append_of_some {d : PyDict} {k : String} {v : String} (l : PyDict)
    (h : List.lookup k d = some v) : List.lookup k (d ++ l) = some v := by
  induction d with
  | nil => simp at h
  | cons hd tl ih =>
    obtain ⟨a, b⟩ := hd
    rw [List.lookup_cons] at h
    rcases hbk : k == a with _ | _
    · simp only [hbk] at h
      simp only [List.cons_append, List.lookup_cons, hbk]
      exact ih h
    · simp only [hbk] at h
      simp only [List.cons_append, List.lookup_cons, hbk]
      exact h

/-- Filling one required field never changes the lookup of a different
key. -/
theorem lookup_fillRequired_ne (acc : PyDict) {k k' : String} (hne : k' ≠ k) :
    List.lookup k' (fillRequired acc k) = List.lookup k' acc := by
  unfold fillRequired
  by_cases h : (List.lookup k acc).isSome
  · rw [if_pos h]
  · have hn : List.lookup k acc = none := Option.not_isSome_iff_eq_none.mp h
    rw [if_neg h, lookup_dictInsert_of_none _ hn]
    rcases hm : List.lookup k' acc with _ | w
    · rw [lookup_append_of_none _ hm]
      have hb : (k' == k) = false := beq_eq_false_iff_ne.mpr hne
      simp [List.lookup_cons, hb]
    · exact lookup_append_of_some _ hm

/-- Filling a required field makes its lookup present, defaulting a
missing value. -/
theorem lookup_fillRequired_self (acc : PyDict) (k : String) :
    List.lookup k (fillRequired acc k)
      = some ((List.lookup k acc).getD
          (if k = "error_analysis" then "Unknown error" else "")) := by
  unfold fillRequired
  by_cases h : (List.lookup k acc).isSome
  · rcases Option.isSome_iff_exists.mp h with ⟨w, hw⟩
    rw [if_pos h, hw]
    simp
  · have hn : List.lookup k acc = none := Option.not_isSome_iff_eq_none.mp h
    rw [if_neg h, lookup_dictInsert_of_none _ hn, lookup_append_of_none _ hn, hn]
    simp [List.lookup_cons]

/-- After `self_correct`'s required-field loop, the key
`corrected_code` is always present, holding the parsed value when the
model supplied one and the empty string otherwise. -/
theorem fillCorrectionFields_lookup (d : PyDict) :
    List.lookup "corrected_code" (fillCorrectionFields d)
      = some ((List.lookup "corrected_code" d).getD "") := by
  unfold fillCorrectionFields
  simp only [List.foldl_cons, List.foldl_nil]
  rw [lookup_fillRequired_ne _ (by decide)]
  rw [lookup_fillRequired_self]
  rw [lookup_fillRequired_ne _ (by decide)]
  simp

/-! ### Verification-loop structural lemmas -/

/-- The iteration an event belongs to. -/
def eventIdx : LoopEvent → Nat
  | .polled i _ => i
  | .logsCall i _ => i
  | .correctCall i _ => i
  | .commitCall i _ => i

/-- The events recorded by one loop iteration regardless of outcome. -/
def StepOut.events : StepOut → List LoopEvent
  | .finished _ ev => ev
  | .raised _ ev => ev
  | .continueWith _ _ ev => ev

/-- Case analysis of one verification-loop iteration: every recorded
event belongs to iteration `i`; a log fetch only happens for (and
records) a non-`success` state; every non-`success` poll is followed by
a log fetch; an early return carries `iterations = i`, makes no
correction call and no commit, carries either no error message (success)
or the no-diagnostics message, and a `success` poll at return means the
result is successful and carries the working code; a continuing
iteration makes exactly one correction call and commits exactly the
adopted corrected code, which is the parsed reply's `corrected_code`
after the required-field fill (defaulting to the working code). -/
theorem loopStep_master (env : LoopEnv) (i : Nat) (c : String) :
    (∀ e ∈ (loopStep env i c).events, eventIdx e = i) ∧
    (∀ j s, LoopEvent.logsCall j s ∈ (loopStep env i c).events → s ≠ "success") ∧
    (∀ j s, LoopEvent.polled j s ∈ (loopStep env i c).events → s ≠ "success" →
       LoopEvent.logsCall j s ∈ (loopStep env i c).events) ∧
    (∀ r ev, loopStep env i c = .finished r ev →
       r.iterations = i ∧ countCorrections ev = 0 ∧
       (∀ j cc, ¬ LoopEvent.commitCall j cc ∈ ev) ∧
       (∀ j s, LoopEvent.polled j s ∈ ev → s = "success" →
          r.success = true ∧ r.corrected_code = some c) ∧
       (r.error_message = none ∨
        r.error_message = some "CI failed but no specific error logs found")) ∧
    (∀ e' ev, loopStep env i c = .raised e' ev →
       (∀ j s, LoopEvent.polled j s ∈ ev → s ≠ "success")) ∧
    (∀ c' lg ev, loopStep env i c = .continueWith c' lg ev →
       countCorrections ev = 1 ∧
       (∀ j s, LoopEvent.polled j s ∈ ev → s ≠ "success") ∧
       LoopEvent.commitCall i c' ∈ ev ∧
       (∀ j cc, LoopEvent.commitCall j cc ∈ ev → cc = c')) ∧
    (∀ j cc, LoopEvent.commitCall j cc ∈ (loopStep env i c).events →
       ∃ reply, env.modelReply i = .ok reply ∧
         cc = ((List.lookup "corrected_code" (fillCorrectionFields reply)).getD c)) := by
  rcases h1 : env.ciStatus i with e | status
  · simp only [loopStep, h1]
    simp [StepOut.events, countCorrections]
    all_goals aesop
  · by_cases h2 : status.state = "success"
    · simp only [loopStep, h1, if_pos h2]
      simp [StepOut.events, countCorrections, eventIdx, h2]
      all_goals aesop
    · rcases h3 : env.checkLogs i with e | logs
      · simp only [loopStep, h1, if_neg h2, h3]
        simp [StepOut.events, countCorrections, eventIdx]
        all_goals aesop
      · by_cases h4 : logs.isEmpty
        · simp only [loopStep, h1, if_neg h2, h3, if_pos h4]
          simp [StepOut.events, countCorrections, eventIdx]
          all_goals aesop
        · rcases h5 : env.modelReply i with e | reply
          · simp only [loopStep, h1, if_neg h2, h3, if_neg h4, h5]
            simp [StepOut.events, countCorrections, eventIdx]
            all_goals aesop
          · rcases h6 : env.commitResult i with e | u
            · simp only [loopStep, h1, if_neg h2, h3, if_neg h4, h5, h6]
              simp [StepOut.events, countCorrections, eventIdx]
              all_goals aesop
            · simp only [loopStep, h1, if_neg h2, h3, if_neg h4, h5, h6]
              simp [StepOut.events, countCorrections, eventIdx]
              all_goals aesop

theorem countCorrections_append (a b : List LoopEvent) :
    countCorrections (a ++ b) = countCorrections a + countCorrections b := by
  simp [countCorrections, List.filter_append]

/-- Iteration count and correction count for runs of the loop that
return a result: on budget exhaustion (marked by the exhaustion error
message) the correction count exactly matches the iteration count; on
an early return (no error message, or the no-diagnostics message) it is
exactly one less. -/
theorem loopAux_ok_count (env : LoopEnv) (m : Nat) :
    ∀ rem iteration code logs trace r tr,
      loopAux env m rem iteration code logs trace = (.ok r, tr) →
      r.iterations ≤ iteration + rem ∧
      ((countCorrections tr + iteration = countCorrections trace + r.iterations ∧
        r.error_message = some ("Maximum iterations (" ++ toString m
          ++ ") reached without CI success")) ∨
       (countCorrections tr + 1 + iteration = countCorrections trace + r.iterations ∧
        (r.error_message = none ∨
         r.error_message = some "CI failed but no specific error logs found"))) := by
  intro rem
  induction rem with
  | zero =>
    intro iteration code logs trace r tr h
    simp only [loopAux, Prod.mk.injEq, Except.ok.injEq] at h
    obtain ⟨hr, htr⟩ := h
    subst htr
    subst hr
    exact ⟨by simp, Or.inl ⟨by simp, rfl⟩⟩
  | succ rem ih =>
    intro iteration code logs trace r tr h
    simp only [loopAux] at h
    rcases hs : loopStep env (iteration + 1) code with ⟨r', ev⟩ | ⟨e, ev⟩ | ⟨c', lg, ev⟩ <;>
      simp only [hs] at h
    · simp only [Prod.mk.injEq, Except.ok.injEq] at h
      obtain ⟨hr, htr⟩ := h
      subst hr
      subst htr
      obtain ⟨-, -, -, hfin, -⟩ := loopStep_master env (iteration + 1) code
      obtain ⟨hit, hcnt, -, -, hmsg⟩ := hfin r' ev hs
      rw [countCorrections_append, hcnt]
      exact ⟨by omega, Or.inr ⟨by omega, hmsg⟩⟩
    · simp at h
    · have hres := ih (iteration + 1) c' lg (trace ++ ev) r tr h
      obtain ⟨-, -, -, -, -, hcont, -⟩ := loopStep_master env (iteration + 1) code
      obtain ⟨hc1, -, -, -⟩ := hcont c' lg ev hs
      rw [countCorrections_append, hc1] at hres
      obtain ⟨ha, hb⟩ := hres
      refine ⟨by omega, ?_⟩
      rcases hb with ⟨hb, hmsg⟩ | ⟨hb, hmsg⟩
      · exact Or.inl ⟨by omega, hmsg⟩
      · exact Or.inr ⟨by omega, hmsg⟩

/-- When every gateway call an iteration makes returns normally, the
iteration never raises. -/
theorem loopStep_not_raised (env : LoopEnv) (i : Nat) (c : String)
    (h1 : ∃ s, env.ciStatus i = .ok s) (h2 : ∃ l, env.checkLogs i = .ok l)
    (h3 : ∃ d, env.modelReply i = .ok d) (h4 : ∃ u, env.commitResult i = .ok u) :
    ∀ e ev, loopStep env i c ≠ .raised e ev := by
  obtain ⟨s, hs⟩ := h1
  obtain ⟨l, hl⟩ := h2
  obtain ⟨d, hd⟩ := h3
  obtain ⟨u, hu⟩ := h4
  intro e ev
  simp only [loopStep, hs, hl, hd, hu]
  split_ifs <;> simp

/-- When every gateway call returns normally, the loop returns a
`VerificationResult` (no exception escapes). -/
theorem loopAux_total (env : LoopEnv)
    (h1 : ∀ i, ∃ s, env.ciStatus i = .ok s) (h2 : ∀ i, ∃ l, env.checkLogs i = .ok l)
    (h3 : ∀ i, ∃ d, env.modelReply i = .ok d) (h4 : ∀ i, ∃ u, env.commitResult i = .ok u)
    (m : Nat) :
    ∀ rem iteration code logs trace,
      ∃ r tr, loopAux env m rem iteration code logs trace = (.ok r, tr) := by
  intro rem
  induction rem with
  | zero =>
    intro iteration code logs trace
    exact ⟨_, _, rfl⟩
  | succ rem ih =>
    intro iteration code logs trace
    rcases hs : loopStep env (iteration + 1) code with ⟨r', ev⟩ | ⟨e, ev⟩ | ⟨c', lg, ev⟩
    · exact ⟨r', trace ++ ev, by simp only [loopAux, hs]⟩
    · exact absurd hs (loopStep_not_raised env (iteration + 1) code
        (h1 _) (h2 _) (h3 _) (h4 _) e ev)
    · obtain ⟨r, tr, hr⟩ := ih (iteration + 1) c' lg (trace ++ ev)
      exact ⟨r, tr, by simp only [loopAux, hs]; exact hr⟩

/-- A trace records log fetches only for non-`success` states. -/
def logsNonSuccess (T : List LoopEvent) : Prop :=
  ∀ j s, LoopEvent.logsCall j s ∈ T → s ≠ "success"

/-- In a trace, every poll of a non-`success` state is accompanied by a
log fetch for the same iteration and state. -/
def polledImpliesLogs (T : List LoopEvent) : Prop :=
  ∀ j s, LoopEvent.polled j s ∈ T → s = "success" ∨ LoopEvent.logsCall j s ∈ T

/-- In a trace, a commit whose iteration's parsed model reply lacks the
`corrected_code` key commits the empty string. -/
def commitEmptyOnOmission (env : LoopEnv) (T : List LoopEvent) : Prop :=
  ∀ j cc, LoopEvent.commitCall j cc ∈ T →
    ∀ reply, env.modelReply j = .ok reply →
      List.lookup "corrected_code" reply = none → cc = ""

/-- Appending the events of one loop iteration preserves the three
trace properties. -/
theorem traceProps_append {env : LoopEnv} {i : Nat} {c : String} {out : StepOut}
    (hout : loopStep env i c = out) (trace : List LoopEvent)
    (p1 : logsNonSuccess trace) (p2 : polledImpliesLogs trace)
    (p3 : commitEmptyOnOmission env trace) :
    logsNonSuccess (trace ++ out.events) ∧ polledImpliesLogs (trace ++ out.events) ∧
    commitEmptyOnOmission env (trace ++ out.events) := by
  obtain ⟨hidx, hlogs, hpl, -, -, -, hcommit⟩ := loopStep_master env i c
  rw [hout] at hidx hlogs hpl hcommit
  refine ⟨?_, ?_, ?_⟩
  · intro j s hm
    rcases List.mem_append.mp hm with hm | hm
    · exact p1 j s hm
    · exact hlogs j s hm
  · intro j s hm
    rcases List.mem_append.mp hm with hm | hm
    · rcases p2 j s hm with h | h
      · exact Or.inl h
      · exact Or.inr (List.mem_append.mpr (Or.inl h))
    · by_cases hsu : s = "success"
      · exact Or.inl hsu
      · exact Or.inr (List.mem_append.mpr (Or.inr (hpl j s hm hsu)))
  · intro j cc hm reply hrep hnone
    rcases List.mem_append.mp hm with hm | hm
    · exact p3 j cc hm reply hrep hnone
    · have hj := hidx _ hm
      simp only [eventIdx] at hj
      obtain ⟨reply', hrep', hcc⟩ := hcommit j cc hm
      rw [hj] at hrep
      have hinj : reply' = reply := by
        have := hrep'.symm.trans hrep
        injection this
      subst hinj
      rw [fillCorrectionFields_lookup, hnone] at hcc
      simpa using hcc

/-- Properties of the run trace of the verification loop: log fetches
record only non-`success` states, every non-`success` poll is followed
by a log fetch at the same iteration, and a commit whose iteration's
parsed model reply lacks `corrected_code` commits the empty string. -/
theorem loopAux_trace_props (env : LoopEnv) (m : Nat) :
    ∀ rem iteration code logs trace res tr,
      loopAux env m rem iteration code logs trace = (res, tr) →
      logsNonSuccess trace → polledImpliesLogs trace → commitEmptyOnOmission env trace →
      logsNonSuccess tr ∧ polledImpliesLogs tr ∧ commitEmptyOnOmission env tr := by
  intro rem
  induction rem with
  | zero =>
    intro iteration code logs trace res tr h p1 p2 p3
    simp only [loopAux, Prod.mk.injEq] at h
    obtain ⟨-, htr⟩ := h
    subst htr
    exact ⟨p1, p2, p3⟩
  | succ rem ih =>
    intro iteration code logs trace res tr h p1 p2 p3
    simp only [loopAux] at h
    rcases hs : loopStep env (iteration + 1) code with ⟨r', ev⟩ | ⟨e, ev⟩ | ⟨c', lg, ev⟩ <;>
      simp only [hs] at h
    · obtain ⟨-, htr⟩ := Prod.mk.injEq .. ▸ h
      subst htr
      exact traceProps_append hs trace p1 p2 p3
    · obtain ⟨-, htr⟩ := Prod.mk.injEq .. ▸ h
      subst htr
      exact traceProps_append hs trace p1 p2 p3
    · obtain ⟨q1, q2, q3⟩ := traceProps_append hs trace p1 p2 p3
      exact ih (iteration + 1) c' lg (trace ++ ev) res tr h q1 q2 q3

/-- Round-trip property of the loop: when a run returns a result and its
trace shows a commit of code `cc` at some iteration followed by a
`success` poll at the next iteration, the result is successful and its
`corrected_code` is exactly `cc`. -/
theorem loopAux_roundtrip (env : LoopEnv) (m : Nat) :
    ∀ rem iteration code logs trace r tr,
      loopAux env m rem iteration code logs trace = (.ok r, tr) →
      (∀ e ∈ trace, eventIdx e ≤ iteration) →
      (∀ j s, LoopEvent.polled j s ∈ trace → s ≠ "success") →
      (∀ cc, LoopEvent.commitCall iteration cc ∈ trace → cc = code) →
      ∀ j cc, LoopEvent.commitCall j cc ∈ tr → LoopEvent.polled (j + 1) "success" ∈ tr →
        r.success = true ∧ r.corrected_code = some cc := by
  intro rem
  induction rem with
  | zero =>
    intro iteration code logs trace r tr h i1 i2 i3 j cc hcm hpo
    simp only [loopAux, Prod.mk.injEq, Except.ok.injEq] at h
    obtain ⟨hr, htr⟩ := h
    subst htr
    exact absurd rfl (i2 _ _ hpo)
  | succ rem ih =>
    intro iteration code logs trace r tr h i1 i2 i3 j cc hcm hpo
    simp only [loopAux] at h
    obtain ⟨hidx, -, -, hfin, -, hcont, -⟩ := loopStep_master env (iteration + 1) code
    rcases hs : loopStep env (iteration + 1) code with ⟨r', ev⟩ | ⟨e, ev⟩ | ⟨c', lg, ev⟩ <;>
      simp only [hs] at h hidx hfin hcont <;>
      simp only [StepOut.events] at hidx
    · simp only [Prod.mk.injEq, Except.ok.injEq] at h
      obtain ⟨hr, htr⟩ := h
      subst hr
      subst htr
      obtain ⟨-, -, hnocommit, hpolled, -⟩ := hfin r' ev rfl
      rcases List.mem_append.mp hcm with hcm | hcm
      · rcases List.mem_append.mp hpo with hpo | hpo
        · exact absurd rfl (i2 _ _ hpo)
        · have hj : j + 1 = iteration + 1 := by
            have := hidx _ hpo
            simpa [eventIdx] using this
          have hj' : j = iteration := by omega
          subst hj'
          have hcc : cc = code := i3 cc hcm
          obtain ⟨hsucc, hcode⟩ := hpolled (j + 1) "success" hpo rfl
          exact ⟨hsucc, by rw [hcode, hcc]⟩
      · exact absurd hcm (hnocommit j cc)
    · simp at h
    · obtain ⟨-, hcpoll, -, hccommit⟩ := hcont c' lg ev rfl
      refine ih (iteration + 1) c' lg (trace ++ ev) r tr h ?_ ?_ ?_ j cc hcm hpo
      · intro e he
        rcases List.mem_append.mp he with he | he
        · exact Nat.le_succ_of_le (i1 e he)
        · exact Nat.le_of_eq (hidx e he)
      · intro j' s hm
        rcases List.mem_append.mp hm with hm | hm
        · exact i2 j' s hm
        · exact hcpoll j' s hm
      · intro cc' hm
        rcases List.mem_append.mp hm with hm | hm
        · have := i1 _ hm
          simp [eventIdx] at this
        · exact hccommit _ cc' hm

/-! ### Fix-pipeline structural lemmas -/

theorem mem_dictInsert {d : PyDict} {k v : String} {kv : String × String}
    (h : kv ∈ dictInsert d k v) : kv = (k, v) ∨ kv ∈ d := by
  unfold dictInsert at h
  by_cases hm : d.any (fun kv => kv.1 == k)
  · rw [if_pos hm] at h
    obtain ⟨x, hx, hfx⟩ := List.mem_map.mp h
    by_cases hk : (x.1 == k) = true
    · rw [if_pos hk] at hfx
      exact Or.inl hfx.symm
    · rw [if_neg hk] at hfx
      exact Or.inr (hfx ▸ hx)
  · rw [if_neg hm] at h
    rcases List.mem_append.mp h with h | h
    · exact Or.inr h
    · simp at h
      exact Or.inl (by simp [h])

theorem length_dictInsert (d : PyDict) (k v : String) :
    (dictInsert d k v).length ≤ d.length + 1 := by
  unfold dictInsert
  split
  · simp
  · simp

theorem contextStep_mem {g : String → Option String} {acc : PyDict} {p : String}
    {kv : String × String} (h : kv ∈ contextStep g acc p) : kv ∈ acc ∨ kv.1 = p := by
  unfold contextStep at h
  rcases hg : g p with _ | c <;> simp only [hg] at h
  · exact Or.inl h
  · by_cases he : c = ""
    · simp only [if_pos he] at h
      exact Or.inl h
    · simp only [if_neg he] at h
      rcases mem_dictInsert h with h' | h'
      · exact Or.inr (by simp [h'])
      · exact Or.inl h'

theorem contextStep_length (g : String → Option String) (acc : PyDict) (p : String) :
    (contextStep g acc p).length ≤ acc.length + 1 := by
  unfold contextStep
  rcases hg : g p with _ | c <;> simp only [hg]
  · omega
  · by_cases he : c = ""
    · simp only [if_pos he]
      omega
    · simp only [if_neg he]
      exact length_dictInsert acc p c

theorem foldl_contextStep_mem (g : String → Option String) :
    ∀ (l : List String) (acc : PyDict) (kv : String × String),
      kv ∈ l.foldl (contextStep g) acc → kv ∈ acc ∨ kv.1 ∈ l := by
  intro l
  induction l with
  | nil =>
    intro acc kv h
    exact Or.inl h
  | cons p t ih =>
    intro acc kv h
    simp only [List.foldl_cons] at h
    rcases ih (contextStep g acc p) kv h with h' | h'
    · rcases contextStep_mem h' with h'' | h''
      · exact Or.inl h''
      · exact Or.inr (by simp [h''])
    · exact Or.inr (List.mem_cons_of_mem _ h')

theorem foldl_contextStep_length (g : String → Option String) :
    ∀ (l : List String) (acc : PyDict),
      (l.foldl (contextStep g) acc).length ≤ acc.length + l.length := by
  intro l
  induction l with
  | nil =>
    intro acc
    simp
  | cons p t ih =>
    intro acc
    simp only [List.foldl_cons, List.length_cons]
    have h1 := ih (contextStep g acc p)
    have h2 := contextStep_length g acc p
    omega

/-- The code context built by Step 6 always holds at most 10 entries. -/
theorem buildCodeContext_length_le (g : String → Option String) (rel : List String) :
    (buildCodeContext g rel).length ≤ 10 := by
  unfold buildCodeContext
  have h1 := foldl_contextStep_length g (rel.take 10) []
  have h2 : (rel.take 10).length ≤ 10 := by
    simpa using List.length_take_le 10 rel
  simpa using le_trans h1 (by simpa using h2)

/-- Number of service-level `create_branch` invocations in a trace. -/
def countBranchCalls (tr : List RepoEvent) : Nat :=
  (tr.filter (fun e => match e with | .branchCall _ _ => true | _ => false)).length

/-- One `create_branch` call records exactly one service-level
invocation, and only ever looks up its requested base ref or the
`master` fallback ref. -/
theorem create_branch_events (env : BranchEnv) (b n : String) :
    countBranchCalls (create_branch env b n).2 = 1 ∧
    (∀ base nm, RepoEvent.branchCall base nm ∈ (create_branch env b n).2 →
       base = b ∧ nm = n) ∧
    (∀ r, RepoEvent.refLookup r ∈ (create_branch env b n).2 →
       r = "heads/" ++ b ∨ r = "heads/master") := by
  unfold create_branch
  rcases h1 : env.getGitRef ("heads/" ++ b) with e | sha <;> simp only [h1]
  · rcases h2 : env.getGitRef "heads/master" with e2 | sha2 <;> simp only [h2]
    · refine ⟨rfl, ?_, ?_⟩ <;> intros <;> simp_all [countBranchCalls] <;> tauto
    · rcases h3 : env.createGitRef ("refs/heads/" ++ n) sha2 with e3 | u <;> simp only [h3] <;>
        (refine ⟨rfl, ?_, ?_⟩ <;> intros <;> simp_all [countBranchCalls] <;> tauto)
  · rcases h3 : env.createGitRef ("refs/heads/" ++ n) sha with e3 | u <;> simp only [h3] <;>
      (refine ⟨rfl, ?_, ?_⟩ <;> intros <;> simp_all [countBranchCalls] <;> tauto)

theorem countBranchCalls_append (a b : List RepoEvent) :
    countBranchCalls (a ++ b) = countBranchCalls a + countBranchCalls b := by
  simp [countBranchCalls, List.filter_append]

/-- Branch-creation policy of the fix pipeline: only the bases `main`
and `master` are ever used; a permission-signalled failure reports
immediately after a single `create_branch` invocation; any other
failure retries `create_branch` exactly once, against `master`. -/
theorem branchStep_policy (env : BranchEnv) (name : String) :
    (∀ base nm, RepoEvent.branchCall base nm ∈ (branchStep env name).2 →
       base = "main" ∨ base = "master") ∧
    (∀ r, RepoEvent.refLookup r ∈ (branchStep env name).2 →
       r = "heads/main" ∨ r = "heads/master") ∧
    ((branchStep env name).1 = BranchOutcome.permissionDenied →
       countBranchCalls (branchStep env name).2 = 1) ∧
    (∀ e, (create_branch env "main" name).1 = .error e → hasPermSignal e = false →
       (branchStep env name).2
         = (create_branch env "main" name).2 ++ (create_branch env "master" name).2) := by
  obtain ⟨m1, m2, m3⟩ := create_branch_events env "main" name
  obtain ⟨s1, s2, s3⟩ := create_branch_events env "master" name
  unfold branchStep
  rcases hm : create_branch env "main" name with ⟨fst, ev⟩
  rw [hm] at m1 m2 m3
  simp only at m1 m2 m3
  rcases fst with e | n'
  · by_cases hp : hasPermSignal e = true
    · simp only [hm, if_pos hp]
      refine ⟨?_, ?_, ?_, ?_⟩
      · intro base nm h
        exact Or.inl (m2 base nm h).1
      · intro r h
        rcases m3 r h with h' | h'
        · exact Or.inl h'
        · exact Or.inr h'
      · intro _
        exact m1
      · intro e' he hns
        obtain rfl : e = e' := by injection he
        rw [hp] at hns
        cases hns
    · simp only [hm, if_neg hp]
      rcases hs : create_branch env "master" name with ⟨fst2, ev2⟩
      rw [hs] at s1 s2 s3
      simp only at s1 s2 s3
      rcases fst2 with e2 | n2 <;> simp only
      · refine ⟨?_, ?_, ?_, ?_⟩
        · intro base nm h
          rcases List.mem_append.mp h with h' | h'
          · exact Or.inl (m2 base nm h').1
          · exact Or.inr (s2 base nm h').1
        · intro r h
          rcases List.mem_append.mp h with h' | h'
          · rcases m3 r h' with h'' | h''
            · exact Or.inl h''
            · exact Or.inr h''
          · rcases s3 r h' with h'' | h''
            · exact Or.inr h''
            · exact Or.inr h''
        · intro hcontra
          exact absurd hcontra (by simp)
        · intro e' he hns
          first
          | rfl
          | trivial
      · refine ⟨?_, ?_, ?_, ?_⟩
        · intro base nm h
          rcases List.mem_append.mp h with h' | h'
          · exact Or.inl (m2 base nm h').1
          · exact Or.inr (s2 base nm h').1
        · intro r h
          rcases List.mem_append.mp h with h' | h'
          · rcases m3 r h' with h'' | h''
            · exact Or.inl h''
            · exact Or.inr h''
          · rcases s3 r h' with h'' | h''
            · exact Or.inr h''
            · exact Or.inr h''
        · intro hcontra
          exact absurd hcontra (by simp)
        · intro e' he hns
          first
          | rfl
          | trivial
  · simp only [hm]
    refine ⟨?_, ?_, ?_, ?_⟩
    · intro base nm h
      exact Or.inl (m2 base nm h).1
    · intro r h
      rcases m3 r h with h' | h'
      · exact Or.inl h'
      · exact Or.inr h'
    · intro hcontra
      exact absurd hcontra (by simp)
    · intro e' he hns
      exact Except.noConfusion he

/-! ### Claim theorems -/

/-- Iteration count of a loop outcome (0 for an escaped exception). -/
def resultIterations : Except String VerificationResult → Nat
  | .ok r => r.iterations
  | .error _ => 0

/-- Gateway behaviour where the first poll reports CI success. -/
def envFirstPollSuccess : LoopEnv where
  ciStatus := fun _ => .ok { state := "success", statuses := [] }
  checkLogs := fun _ => .ok []
  modelReply := fun _ => .ok []
  commitResult := fun _ => .ok ()

/-- Gateway behaviour where CI always fails with one failed check and
the model always returns a corrected code `"v2"`. -/
def envAlwaysFailing : LoopEnv where
  ciStatus := fun _ => .ok { state := "failure", statuses := [] }
  checkLogs := fun _ => .ok [[("name", "build"), ("conclusion", "failure")]]
  modelReply := fun _ => .ok [("corrected_code", "v2")]
  commitResult := fun _ => .ok ()

/-- C1 counterexample: a run whose first poll reports `success` returns
`iterations = 1` although zero correction-capability calls were
executed, so `iterations` does not equal the number of correction
cycles actually executed. -/
theorem c1_counter_success_first_poll :
    resultIterations (runVerificationLoop envFirstPollSuccess 3 "code").1 = 1 ∧
    countCorrections (runVerificationLoop envFirstPollSuccess 3 "code").2 = 0 ∧
    (1 : Nat) ≠ 0 :=
  ⟨rfl, rfl, by decide⟩

/-- The exhaustion message never coincides with the no-diagnostics
message, whatever the iteration budget. -/
theorem exhaust_msg_ne_nodiag (m : Nat) :
    ("Maximum iterations (" ++ toString m ++ ") reached without CI success")
      ≠ "CI failed but no specific error logs found" := by
  intro h
  have h1 : ("Maximum iterations (" ++ toString m
      ++ ") reached without CI success").data.head? = some 'M' := rfl
  rw [h] at h1
  exact absurd h1 (by decide)

/-- C1 (amended): for every verification-loop run that returns a
`VerificationResult`, the `iterations` field is at most
`max_iterations`; the number of correction cycles actually executed
equals `iterations` exactly when the budget is exhausted (the result
carries the exhaustion error message) and equals `iterations - 1`
exactly on an early return (success or missing diagnostics). -/
theorem c1_iterations_bound_and_correction_count (env : LoopEnv) (m : Nat)
    (c0 : String) (r : VerificationResult) (tr : List LoopEvent)
    (h : runVerificationLoop env m c0 = (.ok r, tr)) :
    r.iterations ≤ m ∧
    (r.error_message = some ("Maximum iterations (" ++ toString m
        ++ ") reached without CI success") →
      countCorrections tr = r.iterations) ∧
    (r.error_message ≠ some ("Maximum iterations (" ++ toString m
        ++ ") reached without CI success") →
      countCorrections tr + 1 = r.iterations) := by
  obtain ⟨ha, hb⟩ := loopAux_ok_count env m m 0 c0 [] [] r tr h
  have h0 : countCorrections ([] : List LoopEvent) = 0 := rfl
  rw [h0] at hb
  refine ⟨by omega, ?_, ?_⟩
  · intro hm
    rcases hb with ⟨hc, -⟩ | ⟨hc, hmsg⟩
    · omega
    · exfalso
      rcases hmsg with hmsg | hmsg
      · rw [hm] at hmsg
        cases hmsg
      · rw [hm] at hmsg
        exact exhaust_msg_ne_nodiag m (Option.some.inj hmsg)
  · intro hm
    rcases hb with ⟨hc, hmsg⟩ | ⟨hc, hmsg⟩
    · exact absurd hmsg hm
    · omega

/-- The exhaustion result produced by three failing iterations. -/
def exhaustResult : VerificationResult :=
  { success := false, iterations := 3, final_status := "timeout",
    error_logs := [[("name", "build"), ("conclusion", "failure")]],
    corrected_code := some "v2",
    error_message := some "Maximum iterations (3) reached without CI success" }

theorem c1_exhaustion_witness :
    exhaustResult.iterations ≤ 3 ∧
    countCorrections (runVerificationLoop envAlwaysFailing 3 "v1").2
      = exhaustResult.iterations := by
  obtain ⟨ha, hexh, -⟩ := c1_iterations_bound_and_correction_count envAlwaysFailing 3 "v1"
    exhaustResult (runVerificationLoop envAlwaysFailing 3 "v1").2 rfl
  exact ⟨ha, hexh rfl⟩

/-- Gateway behaviour where the first CI-status poll raises. -/
def envPollRaises : LoopEnv where
  ciStatus := fun _ => .error "GithubException: 500 Server Error"
  checkLogs := fun _ => .ok []
  modelReply := fun _ => .ok []
  commitResult := fun _ => .ok ()

/-- C2 counterexample: the loop body has no exception handler, so a
raising CI-status poll escapes `run_verification_loop` as an exception
instead of being represented in a `VerificationResult`. -/
theorem c2_counter_poll_exception_escapes :
    (runVerificationLoop envPollRaises 3 "code").1
      = .error "GithubException: 500 Server Error" := rfl

/-- C2 (amended): the terminal conditions success, exhaustion and
missing diagnostics are represented in the returned
`VerificationResult` — whenever every gateway call returns normally the
loop always returns a result — but a gateway exception (status poll,
log fetch, correction call, or commit) propagates past the loop's
boundary instead of being represented in the result. -/
theorem c2_result_when_gateways_ok (env : LoopEnv) (m : Nat) (c0 : String)
    (h1 : ∀ i, ∃ s, env.ciStatus i = .ok s)
    (h2 : ∀ i, ∃ l, env.checkLogs i = .ok l)
    (h3 : ∀ i, ∃ d, env.modelReply i = .ok d)
    (h4 : ∀ i, ∃ u, env.commitResult i = .ok u) :
    ∃ r tr, runVerificationLoop env m c0 = (.ok r, tr) :=
  loopAux_total env h1 h2 h3 h4 m m 0 c0 [] []

theorem c2_total_gateways_witness :
    ∃ r tr, runVerificationLoop envAlwaysFailing 2 "v1" = (.ok r, tr) :=
  c2_result_when_gateways_ok envAlwaysFailing 2 "v1"
    (fun _ => ⟨_, rfl⟩) (fun _ => ⟨_, rfl⟩) (fun _ => ⟨_, rfl⟩) (fun _ => ⟨_, rfl⟩)

/-- Gateway behaviour where CI stays `pending` past the poll timeout:
the status handed to the loop is literally what
`wait_for_ci_completion` returns when every poll is `pending`. -/
def envPendingTimeout : LoopEnv where
  ciStatus := fun _ =>
    .ok (wait_for_ci_completion (fun _ => { state := "pending", statuses := [] }) 300 15)
  checkLogs := fun _ => .ok []
  modelReply := fun _ => .ok []
  commitResult := fun _ => .ok ()

/-- C6 counterexample: when the poll timeout elapses with CI still
`pending`, the loop does fetch failed-check logs for the `pending`
state, contradicting the claim that logs are fetched only for
`failure`/`error`. -/
theorem c6_counter_logs_fetched_when_pending :
    (wait_for_ci_completion
        (fun _ => ({ state := "pending", statuses := [] } : CIStatus)) 300 15).state
      = "pending" ∧
    LoopEvent.logsCall 1 "pending" ∈ (runVerificationLoop envPendingTimeout 3 "code").2 :=
  ⟨rfl, by decide⟩

/-- C6 (amended): the loop fetches failed-check logs exactly when the
polled combined state is not `success` — including a state still
`pending` after the poll timeout — and never when it is `success`. -/
theorem c6_logs_iff_not_success (env : LoopEnv) (m : Nat) (c0 : String) :
    (∀ j s, LoopEvent.logsCall j s ∈ (runVerificationLoop env m c0).2 → s ≠ "success") ∧
    (∀ j s, LoopEvent.polled j s ∈ (runVerificationLoop env m c0).2 → s ≠ "success" →
       LoopEvent.logsCall j s ∈ (runVerificationLoop env m c0).2) := by
  obtain ⟨q1, q2, -⟩ := loopAux_trace_props env m m 0 c0 [] []
    (runVerificationLoop env m c0).1 (runVerificationLoop env m c0).2 rfl
    (by intro j s hm; cases hm) (by intro j s hm; cases hm) (by intro j cc hm; cases hm)
  refine ⟨q1, ?_⟩
  intro j s hm hs
  rcases q2 j s hm with h | h
  · exact absurd h hs
  · exact h

theorem c6_logs_witness :
    LoopEvent.logsCall 1 "failure" ∈ (runVerificationLoop envAlwaysFailing 3 "v1").2 :=
  (c6_logs_iff_not_success envAlwaysFailing 3 "v1").2 1 "failure" (by decide) (by decide)

/-- C9 (confirmed): when a run returns a result and its trace shows the
adoption (commit) of a corrected code `cc` at some iteration followed
by a `success` poll at the next iteration, the returned result has
`success = true` and `corrected_code = cc`. -/
theorem c9_round_trip (env : LoopEnv) (m : Nat) (c0 : String)
    (r : VerificationResult) (tr : List LoopEvent)
    (h : runVerificationLoop env m c0 = (.ok r, tr)) (j : Nat) (cc : String)
    (hc : LoopEvent.commitCall j cc ∈ tr)
    (hp : LoopEvent.polled (j + 1) "success" ∈ tr) :
    r.success = true ∧ r.corrected_code = some cc :=
  loopAux_roundtrip env m m 0 c0 [] [] r tr h
    (by intro e he; cases he) (by intro j' s hm; cases hm) (by intro cc' hm; cases hm)
    j cc hc hp

/-- Gateway behaviour failing once and then succeeding, with the model
supplying corrected code `"FIXED"`. -/
def envFailThenSuccess : LoopEnv where
  ciStatus := fun i =>
    if i = 1 then .ok { state := "failure", statuses := [] }
    else .ok { state := "success", statuses := [] }
  checkLogs := fun _ => .ok [[("name", "lint"), ("conclusion", "failure")]]
  modelReply := fun _ => .ok [("corrected_code", "FIXED")]
  commitResult := fun _ => .ok ()

/-- The successful result after one correction round-trip. -/
def roundTripResult : VerificationResult :=
  { success := true, iterations := 2, final_status := "success", error_logs := [],
    corrected_code := some "FIXED", error_message := none }

theorem c9_round_trip_witness :
    roundTripResult.success = true ∧ roundTripResult.corrected_code = some "FIXED" :=
  c9_round_trip envFailThenSuccess 3 "orig" roundTripResult
    (runVerificationLoop envFailThenSuccess 3 "orig").2 rfl 1 "FIXED"
    (by decide) (by decide)

/-- C10 (confirmed): `self_correct`'s required-field fill always makes
the `corrected_code` key present, substituting the empty string when
the parsed model reply omits it; consequently in the loop the fallback
to the unchanged current code never triggers via a missing key, and a
model omission makes the loop commit the empty string as the new file
content. -/
theorem c10_corrected_code_always_present (env : LoopEnv) (m : Nat) (c0 : String) :
    (∀ d, List.lookup "corrected_code" (fillCorrectionFields d)
        = some ((List.lookup "corrected_code" d).getD "")) ∧
    (∀ j cc, LoopEvent.commitCall j cc ∈ (runVerificationLoop env m c0).2 →
      ∀ reply, env.modelReply j = .ok reply →
        List.lookup "corrected_code" reply = none → cc = "") := by
  refine ⟨fillCorrectionFields_lookup, ?_⟩
  obtain ⟨-, -, q3⟩ := loopAux_trace_props env m m 0 c0 [] []
    (runVerificationLoop env m c0).1 (runVerificationLoop env m c0).2 rfl
    (by intro j s hm; cases hm) (by intro j s hm; cases hm) (by intro j cc hm; cases hm)
  exact q3

/-- Gateway behaviour where the parsed model reply omits
`corrected_code`. -/
def envReplyOmitsCode : LoopEnv where
  ciStatus := fun _ => .ok { state := "failure", statuses := [] }
  checkLogs := fun _ => .ok [[("name", "build"), ("conclusion", "failure")]]
  modelReply := fun _ => .ok [("error_analysis", "missing import")]
  commitResult := fun _ => .ok ()

theorem c10_witness_empty_commit :
    List.lookup "corrected_code"
        (fillCorrectionFields [("error_analysis", "missing import")]) = some "" ∧
    LoopEvent.commitCall 1 "" ∈ (runVerificationLoop envReplyOmitsCode 3 "v1").2 ∧
    ("" : String) = "" := by
  refine ⟨?_, by decide,
    (c10_corrected_code_always_present envReplyOmitsCode 3 "v1").2 1 ""
      (by decide) [("error_analysis", "missing import")] rfl rfl⟩
  rw [(c10_corrected_code_always_present envReplyOmitsCode 3 "v1").1
    [("error_analysis", "missing import")]]
  rfl

/-- C3 counterexample: a gateway error raised while checking write
access is absorbed by `check_write_access` into `False`, so the run
aborts with the 403 permission failure instead of continuing. -/
theorem c3_counter_gateway_error_aborts :
    accessCheckStep (Except.error "GithubException: API rate limit exceeded")
      = AccessOutcome.abortForbidden := rfl

/-- C3 (amended): the write-access step of the pipeline lets the run
continue exactly when the collaborator query explicitly returns `True`;
both an explicit negative result and a gateway error during the check
(which `check_write_access` converts to `False`) abort the run with the
403 permission failure. -/
theorem c3_access_gate (q : Except String Bool) :
    accessCheckStep q = AccessOutcome.proceed ↔ q = Except.ok true := by
  rcases q with e | b
  · simp [accessCheckStep, check_write_access]
  · cases b <;> simp [accessCheckStep, check_write_access]

theorem c3_access_gate_witness :
    accessCheckStep (Except.ok true) = AccessOutcome.proceed :=
  (c3_access_gate (Except.ok true)).mpr rfl

/-- A repository where looking up `heads/main` fails with a plain
not-found error and looking up `heads/master` fails with a 403. -/
def env4 : BranchEnv where
  getGitRef := fun r =>
    if r = "heads/main" then .error "404 Not Found" else .error "403 Forbidden"
  createGitRef := fun _ _ => .ok ()

/-- C4 counterexample: a run that ends in `PermissionDenied` (the
escaping error carries a 403 signal) has nevertheless already attempted
the base `master` — the gateway's internal base-ref fallback ran before
the permission error escaped — refuting "without attempting any other
base". -/
theorem c4_counter_master_attempted_on_perm_failure :
    (branchStep env4 "fix-vibe-deadbeef").1 = BranchOutcome.permissionDenied ∧
    RepoEvent.refLookup "heads/master" ∈ (branchStep env4 "fix-vibe-deadbeef").2 :=
  ⟨by decide, by decide⟩

/-- C4 (amended): in the branch-creation step, only the bases `main`
and `master` are ever attempted (at the service level and at the
ref-lookup level); a failure whose escaping error carries a
403/forbidden signal reports `PermissionDenied` after exactly one
`create_branch` invocation, with no pipeline-level retry; a failure
without a permission signal retries `create_branch` exactly once,
against `master`.  However the gateway's internal base-ref fallback may
already have attempted `master` inside the first invocation. -/
theorem c4_branch_retry_policy (env : BranchEnv) (name : String) :
    (∀ base nm, RepoEvent.branchCall base nm ∈ (branchStep env name).2 →
       base = "main" ∨ base = "master") ∧
    (∀ r, RepoEvent.refLookup r ∈ (branchStep env name).2 →
       r = "heads/main" ∨ r = "heads/master") ∧
    ((branchStep env name).1 = BranchOutcome.permissionDenied →
       countBranchCalls (branchStep env name).2 = 1) ∧
    (∀ e, (create_branch env "main" name).1 = .error e → hasPermSignal e = false →
       (branchStep env name).2
         = (create_branch env "main" name).2 ++ (create_branch env "master" name).2) :=
  branchStep_policy env name

/-- A repository where `heads/main` is missing, `heads/master`
resolves, and ref creation fails with a non-permission error. -/
def env4b : BranchEnv where
  getGitRef := fun r =>
    if r = "heads/main" then .error "404 Not Found" else .ok "abc123sha"
  createGitRef := fun _ _ => .error "422 Reference already exists"

theorem c4_branch_retry_witness :
    countBranchCalls (branchStep env4 "fix-vibe-deadbeef").2 = 1 ∧
    (branchStep env4b "fix-vibe-deadbeef").2
      = (create_branch env4b "main" "fix-vibe-deadbeef").2
        ++ (create_branch env4b "master" "fix-vibe-deadbeef").2 :=
  ⟨(c4_branch_retry_policy env4 "fix-vibe-deadbeef").2.2.1 (by decide),
   (c4_branch_retry_policy env4b "fix-vibe-deadbeef").2.2.2 "422 Reference already exists"
     (by decide) (by decide)⟩

/-- C5 (confirmed): Steps 5–6 of the pipeline send exactly the full
blob-path list of the repository tree, together with the optional bug
description, to the relevance-ranking capability, and fetch file
content only for (at most) the first 10 paths it returns, so the built
code context holds at most 10 entries keyed by those paths. -/
theorem c5_scout_full_list_and_cap (tree : List TreeEntry) (desc : Option String)
    (rank : List String → Option String → List String) (g : String → Option String) :
    (scoutAndGather tree desc rank g).scoutArgPaths = blobPaths tree ∧
    (scoutAndGather tree desc rank g).scoutArgDesc = desc ∧
    (∀ f ∈ tree, f.kind = "blob" → f.path ∈ (scoutAndGather tree desc rank g).scoutArgPaths) ∧
    (∀ kv ∈ (scoutAndGather tree desc rank g).codeContext,
       kv.1 ∈ (rank (blobPaths tree) desc).take 10) ∧
    (scoutAndGather tree desc rank g).codeContext.length ≤ 10 := by
  refine ⟨rfl, rfl, ?_, ?_, ?_⟩
  · intro f hf hk
    show f.path ∈ blobPaths tree
    unfold blobPaths
    exact List.mem_map.mpr ⟨f, List.mem_filter.mpr ⟨hf, by simp [hk]⟩, rfl⟩
  · intro kv hkv
    have hkv' : kv ∈ ((rank (blobPaths tree) desc).take 10).foldl (contextStep g) [] := hkv
    rcases foldl_contextStep_mem g _ [] kv hkv' with h | h
    · cases h
    · exact h
  · show (buildCodeContext g (rank (blobPaths tree) desc)).length ≤ 10
    exact buildCodeContext_length_le g _

/-- A small repository tree with two blobs and one directory. -/
def tree5 : List TreeEntry :=
  [{ path := "src/App.tsx", kind := "blob" }, { path := "src", kind := "tree" },
   { path := "README.md", kind := "blob" }]

theorem c5_scout_witness :
    (scoutAndGather tree5 (some "button is red") (fun ps _ => ps)
        (fun _ => some "content")).scoutArgPaths = blobPaths tree5 ∧
    (scoutAndGather tree5 (some "button is red") (fun ps _ => ps)
        (fun _ => some "content")).codeContext.length ≤ 10 :=
  ⟨(c5_scout_full_list_and_cap tree5 (some "button is red") (fun ps _ => ps)
      (fun _ => some "content")).1,
   (c5_scout_full_list_and_cap tree5 (some "button is red") (fun ps _ => ps)
      (fun _ => some "content")).2.2.2.2⟩

/-- C7 (confirmed): when the analysis result's fix is absent or has an
empty `file_path` or empty `code`, the pipeline tail returns the
no-actionable-fix response (`status = "success"`, no PR reference) and
performs no branch creation, no commit and no pull-request creation
(its side-effect trace is empty). -/
theorem c7_incomplete_fix_no_side_effects (env : TailEnv) (fix : Option FixDict)
    (name : String) (h : fixIncomplete fix = true) :
    fixTail env fix name
      = (TailOutcome.returned { status := "success", pr_url := none }, []) := by
  unfold fixTail
  rw [if_pos h]

/-- A fully functional repository gateway for the pipeline tail. -/
def tailEnvDemo : TailEnv where
  branchEnv := { getGitRef := fun _ => .ok "sha0", createGitRef := fun _ _ => .ok () }
  commitFile := fun _ _ _ => .ok ()
  createPull := fun _ _ => .ok "https://github.com/o/r/pull/7"

theorem c7_incomplete_fix_witness :
    fixIncomplete (some { file_path := "", code := "const x = 1" }) = true ∧
    fixTail tailEnvDemo (some { file_path := "", code := "const x = 1" }) "fix-vibe-1234"
      = (TailOutcome.returned { status := "success", pr_url := none }, []) :=
  ⟨by decide, c7_incomplete_fix_no_side_effects tailEnvDemo _ "fix-vibe-1234" (by decide)⟩

/-- C8 (amended): the code context handed to the analysis capability
contains at most 10 files — the file-count cap is applied before
hand-off — while the 2000-character per-file cap is applied inside the
gateway when the prompt is built: a file's section of the prompt
depends only on the first 2000 characters of its content. -/
theorem c8_context_caps (g : String → Option String) (rel : List String) :
    (buildCodeContext g rel).length ≤ 10 ∧
    (∀ p c c', pySlice c 2000 = pySlice c' 2000 →
       contextEntrySection p c = contextEntrySection p c') := by
  refine ⟨buildCodeContext_length_le g rel, ?_⟩
  intro p c c' h
  unfold contextEntrySection
  rw [h]

/-- A 2001-character file content. -/
def longContent : String := String.mk (List.replicate 2001 'x')

/-- C8 counterexample: a 2001-character file content is placed
untruncated into the code context handed to the gateway, so the
2000-character per-file cap is not applied before hand-off. -/
theorem c8_counter_content_uncapped_at_handoff :
    buildCodeContext (fun _ => some longContent) ["src/App.tsx"]
      = [("src/App.tsx", longContent)] ∧
    longContent.length = 2001 ∧ ¬ (longContent.length ≤ 2000) := by
  refine ⟨rfl, ?_, ?_⟩
  · show (List.replicate 2001 'x').length = 2001
    rw [List.length_replicate]
  · show ¬ ((List.replicate 2001 'x').length ≤ 2000)
    rw [List.length_replicate]
    omega

theorem c8_context_caps_witness :
    (buildCodeContext (fun _ => some "body") ["a.ts", "b.ts"]).length ≤ 10 ∧
    contextEntrySection "src/App.tsx" longContent
      = contextEntrySection "src/App.tsx" (longContent ++ "y") := by
  refine ⟨(c8_context_caps (fun _ => some "body") ["a.ts", "b.ts"]).1,
    (c8_context_caps (fun _ => some "body") ["a.ts", "b.ts"]).2 "src/App.tsx" longContent
      (longContent ++ "y") ?_⟩
  show String.mk (longContent.toList.take 2000)
      = String.mk ((longContent ++ "y").toList.take 2000)
  have h1 : longContent.toList = List.replicate 2001 'x' := rfl
  have h2 : (longContent ++ "y").toList = List.replicate 2001 'x' ++ ['y'] := rfl
  rw [h1, h2, List.take_append_of_le_length (by rw [List.length_replicate]; omega)]
